import Mathlib

/-!
Verification of the `waybackcrawl.py` URL categorizer.

The development shallowly embeds the program's pure logic:
* a small regular-expression language covering exactly the constructs used by
  the `CATEGORIES` rule table (case-insensitive literals, the `[0-9]` class,
  the `(\?|$)` alternation, and Python's `$` end-of-line semantics for
  `re.search` without `MULTILINE`);
* `categorize_url`, the first-match classification loop;
* `fetch_urls`, modelled on the parsed JSON response: the header row is
  skipped, the first column of each later row is taken (an empty row raises,
  and the broad `except` turns any failure into `[]`), and the result is
  deduplicated; a `none` response stands for a transport/parse failure;
* `scan`, the result map seeded with every category plus `"other"`,
  and the `__main__` command-line handling including `split("=")[1]`;
* a JSON-value-level encoder/decoder for the persisted mapping.
-/

set_option maxRecDepth 4000

namespace WaybackCrawl

/-- Regular-expression abstract syntax, exactly the constructs appearing in
the rule table of `CATEGORIES` in `waybackcrawl.py`. -/
inductive RE where
  | eps : RE
  | ch : Char → RE
  | digit : RE
  | seq : RE → RE → RE
  | alt : RE → RE → RE
  | eol : RE

/-- Python `$` without `re.MULTILINE`: matches at the end of the string, or
just before a single trailing newline. -/
def atEol : List Char → Bool
  | [] => true
  | [c] => c == '\n'
  | _ => false

/-- Continuation-style matcher: `matchRE r s k` is true iff some split
`s = t ++ u` exists with `r` matching `t` and `k u` true.  Characters are
compared after ASCII lowercasing, modelling `re.I`. -/
def matchRE : RE → List Char → (List Char → Bool) → Bool
  | .eps, s, k => k s
  | .ch _, [], _ => false
  | .ch c, x :: xs, k => (x.toLower == c.toLower) && k xs
  | .digit, [], _ => false
  | .digit, x :: xs, k => x.isDigit && k xs
  | .seq a b, s, k => matchRE a s (fun t => matchRE b t k)
  | .alt a b, s, k => matchRE a s k || matchRE b s k
  | .eol, s, k => atEol s && k s

/-- Try to match `r` at every suffix of the input, as `re.search` does
(unanchored, not full-match). -/
def searchFrom (r : RE) : List Char → Bool
  | [] => matchRE r [] (fun _ => true)
  | x :: xs => matchRE r (x :: xs) (fun _ => true) || searchFrom r xs

/-- Model of `re.search(pattern, url, re.I)` viewed as a Boolean test. -/
def reSearch (r : RE) (s : String) : Bool := searchFrom r s.data

/-- A literal pattern: the sequence of its characters. -/
def litRE (s : String) : RE := s.data.foldr (fun c r => RE.seq (RE.ch c) r) RE.eps

/-- The `(\?|$)` suffix used by the `js` and `api` patterns. -/
def qOrEol : RE := RE.alt (RE.ch '?') RE.eol

/-- The rule table `WaybackCrawl.CATEGORIES`, in declaration order.
Patterns, in order:
`js`: `\.js(\?|$)`, `application/javascript`;
`api`: `/api/v[0-9]/`, `graphql`, `\.json(\?|$)`;
`admin`: `admin`, `dashboard`, `login`, `wp-admin`;
`redirects`: `url=`, `next=`, `redirect=`;
`configs`: `\.env`, `config\.`, `\.git/`. -/
def CATEGORIES : List (String × List RE) :=
  [ ("js", [RE.seq (litRE ".js") qOrEol, litRE "application/javascript"]),
    ("api", [RE.seq (litRE "/api/v") (RE.seq RE.digit (litRE "/")), litRE "graphql",
             RE.seq (litRE ".json") qOrEol]),
    ("admin", [litRE "admin", litRE "dashboard", litRE "login", litRE "wp-admin"]),
    ("redirects", [litRE "url=", litRE "next=", litRE "redirect="]),
    ("configs", [litRE ".env", litRE "config.", litRE ".git/"]) ]

/-- The inner pattern loop of `categorize_url`: true iff any pattern of the
category matches the URL. -/
def matchesCat (u : String) (pats : List RE) : Bool := pats.any (fun p => reSearch p u)

/-- The category loop of `categorize_url`: return the first category whose
pattern list matches, else fall through. -/
def categorizeGo (u : String) : List (String × List RE) → String
  | [] => "other"
  | (cat, pats) :: rest => if matchesCat u pats then cat else categorizeGo u rest

/-- Model of `WaybackCrawl.categorize_url`. -/
def categorize_url (u : String) : String := categorizeGo u CATEGORIES

/-- The generator `url[0] for url in rows`: the first column of every row.
An empty row makes `url[0]` raise `IndexError`, so the whole extraction
fails (`none`), matching the single broad `except` around the fetch. -/
def firstCols : List (List String) → Option (List String)
  | [] => some []
  | [] :: _ => none
  | (u :: _) :: rest => (firstCols rest).map (fun us => u :: us)

/-- Model of `WaybackCrawl.fetch_urls`, on the parsed JSON response.  `none` stands
for a transport error or a non-JSON body (`response.json()` raising); both
that and a malformed row land in the `except` branch and yield `[]`.
Otherwise the header row is dropped, first columns are taken, and
`list(set(...))` is modelled by `List.dedup`. -/
def fetch_urls (resp : Option (List (List String))) : List String :=
  match resp with
  | none => []
  | some rows =>
    match firstCols (rows.drop 1) with
    | some urls => urls.dedup
    | none => []

/-- The initial result map of `WaybackCrawl.__init__`:
`{cat: [] for cat in CATEGORIES}` followed by `results['other'] = []`,
kept as an association list in insertion order. -/
def initResults : List (String × List String) :=
  CATEGORIES.map (fun p => (p.1, [])) ++ [("other", [])]

/-- Model of `self.results[category].append(url)`: extend the list stored under
`cat` (every key of the map is distinct, and `categorize_url` only returns
existing keys). -/
def appendTo (res : List (String × List String)) (cat url : String) :
    List (String × List String) :=
  res.map (fun p => if p.1 = cat then (p.1, p.2 ++ [url]) else p)

/-- The classification loop of `scan`: each URL is appended to the bucket of
its category, starting from the seeded map. -/
def classify_all (urls : List String) : List (String × List String) :=
  urls.foldl (fun res u => appendTo res (categorize_url u) u) initResults

/-- Model of `WaybackCrawl.scan`: fetch, abort with `False` on an empty URL list,
otherwise classify everything and return `True` together with the final
result map. -/
def scan (resp : Option (List (List String))) : Bool × List (String × List String) :=
  let urls := fetch_urls resp
  if urls.isEmpty then (false, initResults) else (true, classify_all urls)

/-- Python's `str.split("=")` on a character list: split at every `'='`,
keeping empty groups. -/
def splitOnEq : List Char → List (List Char)
  | [] => [[]]
  | c :: rest =>
    if c = '=' then [] :: splitOnEq rest
    else
      match splitOnEq rest with
      | [] => [[c]]
      | g :: gs => (c :: g) :: gs

/-- The default output path of `__main__`. -/
def default_output : String := "wayback_results.json"

/-- The output-file handling of `__main__`: if a third argument is present
and starts with `--output=`, the path used is `sys.argv[2].split("=")[1]`;
otherwise the default. -/
def output_arg (argv : List String) : String :=
  match argv.drop 2 with
  | [] => default_output
  | arg :: _ =>
    if arg.data.take 9 = ("--output=").data then
      String.mk ((splitOnEq arg.data).getD 1 [])
    else default_output

/-- Observable outcome of one run of `__main__`. -/
inductive MainOutcome where
  | usage
  | noResults
  | saved : String → List (String × List String) → MainOutcome

/-- Process exit code: `sys.exit(1)` on missing domain, implicit `0`
otherwise. -/
def exitCode : MainOutcome → Nat
  | MainOutcome.usage => 1
  | _ => 0

/-- The `__main__` block: usage exit when no domain argument is given
(`len(sys.argv) < 2`); otherwise run `scan` and write the results to the
parsed output path only when `scan` returned `True`. -/
def mainRun (argv : List String) (resp : Option (List (List String))) : MainOutcome :=
  if argv.length < 2 then MainOutcome.usage
  else
    let r := scan resp
    if r.1 then MainOutcome.saved (output_arg argv) r.2 else MainOutcome.noResults

/-- JSON values of the shape `json.dump` writes for the result map. -/
inductive JVal where
  | str : String → JVal
  | arr : List JVal → JVal
  | obj : List (String × JVal) → JVal

/-- Model of `json.dump(self.results, f)` at the JSON-value level: an object mapping
each category name to the array of its URL strings. -/
def encodeResults (res : List (String × List String)) : JVal :=
  JVal.obj (res.map (fun p => (p.1, JVal.arr (p.2.map JVal.str))))

/-- Read back a JSON string. -/
def decodeStr : JVal → Option String
  | JVal.str s => some s
  | _ => none

/-- Read back an array of JSON strings. -/
def decodeStrs : List JVal → Option (List String)
  | [] => some []
  | v :: vs =>
    match decodeStr v, decodeStrs vs with
    | some s, some ss => some (s :: ss)
    | _, _ => none

/-- Read back one `category ↦ array of URLs` entry. -/
def decodeRow : String × JVal → Option (String × List String)
  | (k, JVal.arr xs) => (decodeStrs xs).map (fun ss => (k, ss))
  | _ => none

/-- Read back the persisted object as a category → URLs mapping. -/
def decodeRows : List (String × JVal) → Option (List (String × List String))
  | [] => some []
  | kv :: rest =>
    match decodeRow kv, decodeRows rest with
    | some p, some ps => some (p :: ps)
    | _, _ => none

/-- Model of `json.load` of the persisted file, at the JSON-value level. -/
def decodeResults : JVal → Option (List (String × List String))
  | JVal.obj kvs => decodeRows kvs
  | _ => none

/-- The key set of the persisted mapping: every declared category plus the
fallback `"other"`. -/
def ALL_CATS : List String := CATEGORIES.map Prod.fst ++ ["other"]

/-! Classification: the first-match loop. -/

theorem categorizeGo_first (u : String) (l : List (String × List RE)) (i : Nat)
    (hi : i < l.length)
    (hm : matchesCat u (l.get ⟨i, hi⟩).2 = true)
    (hprev : ∀ j (hj : j < i), matchesCat u (l.get ⟨j, hj.trans hi⟩).2 = false) :
    categorizeGo u l = (l.get ⟨i, hi⟩).1 := by
  induction l generalizing i with
  | nil => exact absurd hi (Nat.not_lt_zero i)
  | cons hd tl ih =>
    obtain ⟨cat, pats⟩ := hd
    cases i with
    | zero =>
      simp only [List.get] at hm ⊢
      simp [categorizeGo, hm]
    | succ n =>
      have h0 : matchesCat u pats = false := hprev 0 (Nat.succ_pos n)
      simp only [List.get] at h0 ⊢
      simp only [categorizeGo, h0, Bool.false_eq_true, if_false]
      exact ih n (Nat.lt_of_succ_lt_succ hi) hm
        (fun j hj => hprev (j + 1) (Nat.succ_lt_succ hj))

theorem categorizeGo_none (u : String) (l : List (String × List RE))
    (h : ∀ c ∈ l, matchesCat u c.2 = false) :
    categorizeGo u l = "other" := by
  induction l with
  | nil => rfl
  | cons hd tl ih =>
    obtain ⟨cat, pats⟩ := hd
    have h0 : matchesCat u pats = false := h (cat, pats) (List.mem_cons_self _ _)
    simp only [categorizeGo, h0, Bool.false_eq_true, if_false]
    exact ih (fun c hc => h c (List.mem_cons_of_mem _ hc))

/-- C1: for every URL `u` and every category `C` at position `i` of the rule
table, if some pattern of `C` matches `u` (case-insensitive, unanchored
search) and no pattern of any earlier-declared category matches, then
`categorize_url u` returns `C`. -/
theorem c1_first_matching_category (u : String) (i : Nat) (hi : i < CATEGORIES.length)
    (hm : matchesCat u (CATEGORIES.get ⟨i, hi⟩).2 = true)
    (hprev : ∀ j (hj : j < i), matchesCat u (CATEGORIES.get ⟨j, hj.trans hi⟩).2 = false) :
    categorize_url u = (CATEGORIES.get ⟨i, hi⟩).1 :=
  categorizeGo_first u CATEGORIES i hi hm hprev

/-- C1 witness: `http://x.com/wp-admin/login.php` matches the `admin`
category (index 2) and no earlier one, and is classified `admin`. -/
theorem c1_first_matching_category_witness :
    categorize_url "http://x.com/wp-admin/login.php" = "admin" :=
  Eq.trans
    (c1_first_matching_category "http://x.com/wp-admin/login.php" 2 (by decide)
      (by decide) (by decide))
    (by decide)

/-- C2: a URL matching no pattern of any category in the rule table is
classified into the fallback category `"other"`. -/
theorem c2_no_match_other (u : String)
    (h : ∀ c ∈ CATEGORIES, matchesCat u c.2 = false) :
    categorize_url u = "other" :=
  categorizeGo_none u CATEGORIES h

/-- C2 witness: `http://x.com/home` matches no pattern of any category and
is classified `"other"`. -/
theorem c2_no_match_other_witness :
    (∀ c ∈ CATEGORIES, matchesCat "http://x.com/home" c.2 = false) ∧
    categorize_url "http://x.com/home" = "other" :=
  ⟨by decide, c2_no_match_other "http://x.com/home" (by decide)⟩

/-- C3: `http://example.com/api/v1/admin` matches patterns of both the
`api` (index 1) and `admin` (index 2) categories, and is classified `api`
because `api` is declared first. -/
theorem c3_api_declared_before_admin :
    matchesCat "http://example.com/api/v1/admin" (CATEGORIES.get ⟨1, by decide⟩).2 = true ∧
    matchesCat "http://example.com/api/v1/admin" (CATEGORIES.get ⟨2, by decide⟩).2 = true ∧
    categorize_url "http://example.com/api/v1/admin" = "api" := by
  refine ⟨by decide, by decide, by decide⟩

/-! Fetching: header skip, first columns, deduplication. -/

theorem firstCols_of_wf (l : List (List String)) (hwf : ∀ r ∈ l, r ≠ []) :
    ∃ us, firstCols l = some us ∧ ∀ u, u ∈ us ↔ ∃ r ∈ l, ∃ t, r = u :: t := by
  induction l with
  | nil => exact ⟨[], rfl, by simp⟩
  | cons hd tl ih =>
    obtain ⟨us, hus, hmem⟩ := ih (fun r hr => hwf r (List.mem_cons_of_mem _ hr))
    cases hd with
    | nil => exact absurd rfl (hwf [] (List.mem_cons_self _ _))
    | cons u0 rest =>
      refine ⟨u0 :: us, ?_, ?_⟩
      · simp [firstCols, hus]
      · intro u
        constructor
        · intro hu
          rcases List.mem_cons.mp hu with rfl | hu
          · exact ⟨u :: rest, List.mem_cons_self _ _, rest, rfl⟩
          · obtain ⟨r, hr, t, ht⟩ := (hmem u).mp hu
            exact ⟨r, List.mem_cons_of_mem _ hr, t, ht⟩
        · rintro ⟨r, hr, t, ht⟩
          rcases List.mem_cons.mp hr with rfl | hr
          · cases ht; exact List.mem_cons_self _ _
          · exact List.mem_cons_of_mem _ ((hmem u).mpr ⟨r, hr, t, ht⟩)

/-- C4: on a well-formed parsed response (every row after the header is
nonempty), `fetch_urls` skips the header row, takes the first element of
every later row, and returns a duplicate-free list whose members are
exactly those first elements — independent of repetition and ordering in
the input. -/
theorem c4_fetch_dedup (rows : List (List String))
    (hwf : ∀ r ∈ rows.drop 1, r ≠ []) :
    (fetch_urls (some rows)).Nodup ∧
    ∀ u, u ∈ fetch_urls (some rows) ↔ ∃ r ∈ rows.drop 1, ∃ t, r = u :: t := by
  obtain ⟨us, hus, hmem⟩ := firstCols_of_wf (rows.drop 1) hwf
  have hfe : fetch_urls (some rows) = us.dedup := by
    have hus' : firstCols rows.tail = some us := by rwa [List.drop_one] at hus
    simp [fetch_urls, hus']
  rw [hfe]
  exact ⟨List.nodup_dedup us, fun u => (List.mem_dedup).trans (hmem u)⟩

/-- C4 witness: a response repeating `"http://a"` twice after the header
yields a duplicate-free list containing exactly `"http://a"` and
`"http://b"`. -/
theorem c4_fetch_dedup_witness :
    (∀ r ∈ ([["h"], ["http://a"], ["http://b", "x"], ["http://a"]] :
        List (List String)).drop 1, r ≠ []) ∧
    ((fetch_urls (some [["h"], ["http://a"], ["http://b", "x"], ["http://a"]])).Nodup ∧
      ∀ u, u ∈ fetch_urls (some [["h"], ["http://a"], ["http://b", "x"], ["http://a"]]) ↔
        ∃ r ∈ ([["h"], ["http://a"], ["http://b", "x"], ["http://a"]] :
          List (List String)).drop 1, ∃ t, r = u :: t) :=
  ⟨by decide, c4_fetch_dedup [["h"], ["http://a"], ["http://b", "x"], ["http://a"]]
    (by decide)⟩

/-! The scan driver and the main block. -/

/-- C5: whenever the fetch stage yields zero URLs — a `none` response models
a transport or JSON-parse failure, a malformed row also yields `[]`, and so
does an empty archive result — `scan` returns `False` with the result map
untouched, and the main block (given a present domain argument) writes no
output file. -/
theorem c5_empty_fetch_no_output (resp : Option (List (List String)))
    (h : fetch_urls resp = []) :
    scan resp = (false, initResults) ∧
    ∀ argv : List String, 2 ≤ argv.length → mainRun argv resp = MainOutcome.noResults := by
  have hscan : scan resp = (false, initResults) := by
    simp [scan, h]
  refine ⟨hscan, fun argv hargv => ?_⟩
  simp [mainRun, Nat.not_lt.mpr hargv, hscan]

/-- C5 witness: a transport failure (`none` response) fetches zero URLs,
`scan` fails, and `__main__` with a domain argument writes nothing. -/
theorem c5_empty_fetch_no_output_witness :
    fetch_urls (none : Option (List (List String))) = [] ∧
    (scan (none : Option (List (List String))) = (false, initResults) ∧
      ∀ argv : List String, 2 ≤ argv.length →
        mainRun argv (none : Option (List (List String))) = MainOutcome.noResults) :=
  ⟨by decide, c5_empty_fetch_no_output none (by decide)⟩

/-! The result map: keys and per-category contents. -/

theorem appendTo_keys (res : List (String × List String)) (c u : String) :
    (appendTo res c u).map Prod.fst = res.map Prod.fst := by
  induction res with
  | nil => rfl
  | cons hd tl ih =>
    simp only [appendTo, List.map_cons] at ih ⊢
    refine congrArg₂ List.cons ?_ ih
    by_cases h : hd.1 = c <;> simp [h]

theorem classify_foldl_keys (urls : List String) (res : List (String × List String)) :
    (urls.foldl (fun r u => appendTo r (categorize_url u) u) res).map Prod.fst =
      res.map Prod.fst := by
  induction urls generalizing res with
  | nil => rfl
  | cons u us ih => rw [List.foldl_cons, ih, appendTo_keys]

theorem lookup_appendTo (res : List (String × List String)) (c u k : String) :
    (appendTo res c u).lookup k =
      (res.lookup k).map (fun v => if k = c then v ++ [u] else v) := by
  induction res with
  | nil => rfl
  | cons hd tl ih =>
    obtain ⟨a, b⟩ := hd
    have hcons : appendTo ((a, b) :: tl) c u =
        (if a = c then (a, b ++ [u]) else (a, b)) :: appendTo tl c u := rfl
    by_cases hac : a = c
    · by_cases hka : k = a
      · subst hka; subst hac
        rw [hcons, if_pos rfl]
        simp [List.lookup]
      · rw [hcons, if_pos hac]
        simp [List.lookup, beq_eq_false_iff_ne.mpr hka, ih]
    · by_cases hka : k = a
      · subst hka
        rw [hcons, if_neg hac]
        simp [List.lookup, hac]
      · rw [hcons, if_neg hac]
        simp [List.lookup, beq_eq_false_iff_ne.mpr hka, ih]

theorem lookup_classify_foldl (urls : List String) (res : List (String × List String))
    (k : String) :
    (urls.foldl (fun r u => appendTo r (categorize_url u) u) res).lookup k =
      (res.lookup k).map (fun v => v ++ urls.filter (fun u => categorize_url u == k)) := by
  induction urls generalizing res with
  | nil => simp
  | cons u us ih =>
    rw [List.foldl_cons, ih, lookup_appendTo]
    cases hres : res.lookup k with
    | none => rfl
    | some v =>
      simp only [Option.map_some']
      by_cases hk : categorize_url u = k
      · simp [List.filter_cons, hk]
      · simp [List.filter_cons, hk, Ne.symm hk]

theorem filter_category_nil (cat : String) (urls : List String)
    (h : ∀ u ∈ urls, categorize_url u ≠ cat) :
    urls.filter (fun u => categorize_url u == cat) = [] := by
  induction urls with
  | nil => rfl
  | cons u us ih =>
    have h1 : (categorize_url u == cat) = false :=
      beq_eq_false_iff_ne.mpr (h u (List.mem_cons_self _ _))
    simp [List.filter_cons, h1, ih (fun v hv => h v (List.mem_cons_of_mem _ hv))]

/-- C6: the result map produced by the classification pass has exactly the
declared categories plus `"other"` as keys, in declaration order, and a
category to which no URL of the run is assigned is still present, bound to
the empty list. -/
theorem c6_all_categories_present (urls : List String) (cat : String)
    (hcat : cat ∈ ALL_CATS)
    (hnone : ∀ u ∈ urls, categorize_url u ≠ cat) :
    (classify_all urls).map Prod.fst = ALL_CATS ∧
    (classify_all urls).lookup cat = some [] := by
  constructor
  · rw [classify_all, classify_foldl_keys]
    decide
  · rw [classify_all, lookup_classify_foldl, filter_category_nil cat urls hnone]
    have hinit : initResults.lookup cat = some [] := by
      simp only [ALL_CATS, CATEGORIES, List.map_cons, List.map_nil, List.mem_append,
        List.mem_cons, List.mem_singleton, List.not_mem_nil, or_false] at hcat
      rcases hcat with (rfl | rfl | rfl | rfl | rfl) | rfl <;> rfl
    rw [hinit]
    simp

/-- C6 witness: after classifying only `http://x.com/app.js`, every key is
present and the unmatched `api` category is bound to the empty list. -/
theorem c6_all_categories_present_witness :
    ("api" ∈ ALL_CATS ∧
      ∀ u ∈ (["http://x.com/app.js"] : List String), categorize_url u ≠ "api") ∧
    ((classify_all ["http://x.com/app.js"]).map Prod.fst = ALL_CATS ∧
      (classify_all ["http://x.com/app.js"]).lookup "api" = some []) :=
  ⟨⟨by decide, by decide⟩,
    c6_all_categories_present ["http://x.com/app.js"] "api" (by decide) (by decide)⟩

/-- The end-to-end example rows of the spec: a header followed by one URL
per category and one uncategorized URL. -/
def exampleRows : List (List String) :=
  [["original"],
   ["http://x.com/app.js"],
   ["http://x.com/api/v1/users"],
   ["http://x.com/wp-admin/login.php"],
   ["http://x.com/?redirect=http://y.com"],
   ["http://x.com/.env"],
   ["http://x.com/home"]]

/-- C7: on the spec's example response, `scan` succeeds and the
classification pass puts exactly one URL in each bucket: the `.js` URL in
`js`, the `/api/v1/` URL in `api`, the `wp-admin` URL in `admin`, the
`?redirect=` URL in `redirects`, the `.env` URL in `configs`, and the
`/home` URL in `other`. -/
theorem c7_end_to_end :
    scan (some exampleRows) =
      (true,
        [("js", ["http://x.com/app.js"]),
         ("api", ["http://x.com/api/v1/users"]),
         ("admin", ["http://x.com/wp-admin/login.php"]),
         ("redirects", ["http://x.com/?redirect=http://y.com"]),
         ("configs", ["http://x.com/.env"]),
         ("other", ["http://x.com/home"])]) := by
  decide

/-! Persistence: value-level JSON round-trip. -/

theorem decodeStrs_encode (l : List String) : decodeStrs (l.map JVal.str) = some l := by
  induction l with
  | nil => rfl
  | cons s ss ih => simp [decodeStrs, decodeStr, ih]

theorem decode_encode (res : List (String × List String)) :
    decodeResults (encodeResults res) = some res := by
  induction res with
  | nil => rfl
  | cons hd tl ih =>
    obtain ⟨k, v⟩ := hd
    simp only [encodeResults, decodeResults, List.map_cons] at ih ⊢
    simp [decodeRows, decodeRow, decodeStrs_encode v, ih]

/-- C8: serializing the result mapping of a run to JSON and reading it back
yields the identical mapping: the same keys bound to the same, possibly
empty, arrays of URL strings. -/
theorem c8_save_load_roundtrip (urls : List String) :
    decodeResults (encodeResults (classify_all urls)) = some (classify_all urls) :=
  decode_encode (classify_all urls)

/-- C9: invoked without a domain argument (`len(sys.argv) < 2`), the program
prints the usage message and exits with code 1; the outcome carries no
fetched or classified data and no written file, whatever the archive would
have answered. -/
theorem c9_usage_exit (argv : List String) (resp : Option (List (List String)))
    (h : argv.length < 2) :
    mainRun argv resp = MainOutcome.usage ∧ exitCode (mainRun argv resp) = 1 := by
  have husage : mainRun argv resp = MainOutcome.usage := by
    simp [mainRun, h]
  exact ⟨husage, by rw [husage]; rfl⟩

/-- C9 witness: running with only the program name exits with usage, no
matter the (never-consulted) archive response. -/
theorem c9_usage_exit_witness :
    (["waybackcrawl.py"] : List String).length < 2 ∧
    (mainRun ["waybackcrawl.py"] (none : Option (List (List String))) =
        MainOutcome.usage ∧
      exitCode (mainRun ["waybackcrawl.py"] (none : Option (List (List String)))) = 1) :=
  ⟨by decide, c9_usage_exit ["waybackcrawl.py"] none (by decide)⟩

/-! Command line: the `--output=` argument. -/

theorem splitOnEq_ne_nil (l : List Char) : splitOnEq l ≠ [] := by
  induction l with
  | nil => simp [splitOnEq]
  | cons c cs ih =>
    by_cases h : c = '='
    · simp [splitOnEq, h]
    · simp only [splitOnEq, h, if_false]
      cases hcs : splitOnEq cs with
      | nil => simp
      | cons g gs => simp

theorem splitOnEq_append (l r : List Char) (hl : '=' ∉ l) :
    splitOnEq (l ++ '=' :: r) = l :: splitOnEq r := by
  induction l with
  | nil => simp [splitOnEq]
  | cons c cs ih =>
    have hc : ¬c = '=' := fun h => hl (h ▸ List.mem_cons_self c cs)
    have hcs : '=' ∉ cs := fun h => hl (List.mem_cons_of_mem c h)
    rw [List.cons_append]
    show (if c = '=' then [] :: splitOnEq (cs ++ '=' :: r)
      else match splitOnEq (cs ++ '=' :: r) with
        | [] => [[c]]
        | g :: gs => (c :: g) :: gs) = (c :: cs) :: splitOnEq r
    rw [if_neg hc, ih hcs]

theorem splitOnEq_headD (l : List Char) :
    (splitOnEq l).headD [] = l.takeWhile (fun c => c != '=') := by
  induction l with
  | nil => rfl
  | cons c cs ih =>
    by_cases h : c = '='
    · subst h
      simp [splitOnEq, List.takeWhile_cons]
    · have hstep : splitOnEq (c :: cs) =
          match splitOnEq cs with
          | [] => [[c]]
          | g :: gs => (c :: g) :: gs := by
        show (if c = '=' then [] :: splitOnEq cs
          else match splitOnEq cs with
            | [] => [[c]]
            | g :: gs => (c :: g) :: gs) = _
        rw [if_neg h]
      obtain ⟨g, gs, hg⟩ := List.exists_cons_of_ne_nil (splitOnEq_ne_nil cs)
      rw [hg] at ih
      simp only [List.headD_cons] at ih
      rw [hstep, hg]
      simp [List.takeWhile_cons, h, ih]

/-- C10: when the second command-line argument has the form `--output=<p>`,
the output path used is `sys.argv[2].split("=")[1]`, i.e. the part of `<p>`
before its first `=` (the text between the first and second `=` of the
argument); in particular `--output=a=b.json` silently writes to the
truncated path `a`. -/
theorem c10_output_truncated_at_second_eq :
    (∀ p : String,
      output_arg ["waybackcrawl.py", "example.com", "--output=" ++ p] =
        String.mk (p.data.takeWhile (fun c => c != '='))) ∧
    output_arg ["waybackcrawl.py", "example.com", "--output=a=b.json"] = "a" := by
  constructor
  · intro p
    have h9 : ("--output=").data = ("--output").data ++ ['='] := by decide
    have hdata : ("--output=" ++ p).data = "--output".data ++ ('=' :: p.data) := by
      rw [String.data_append, h9, List.append_assoc]
      rfl
    have htake : (("--output=" ++ p).data).take 9 = ("--output=").data := by
      rw [String.data_append]
      rfl
    have hsplit : splitOnEq (("--output=" ++ p).data) = "--output".data :: splitOnEq p.data := by
      rw [hdata, splitOnEq_append _ _ (by decide)]
    show (if ("--output=" ++ p).data.take 9 = ("--output=").data then
        String.mk ((splitOnEq ("--output=" ++ p).data).getD 1 [])
      else default_output) = String.mk (p.data.takeWhile (fun c => c != '='))
    rw [if_pos htake, hsplit]
    obtain ⟨g, gs, hg⟩ := List.exists_cons_of_ne_nil (splitOnEq_ne_nil p.data)
    have hhead := splitOnEq_headD p.data
    rw [hg] at hhead ⊢
    simp only [List.headD_cons] at hhead
    simp [hhead]
  · decide

end WaybackCrawl

